import Mathlib

/-!
Verification development for the map-bot conversational session orchestrator
(backend server in the repository). The definitions below are a shallow
embedding of the JavaScript source: the WebSocket message handler, its
streaming callbacks and event-loop handlers, the chunk-text normalizer
extractTextFromChunk, the inline side-action extraction performed at tool
end, the session store, the safe transport write wsSend, the chat-history
truncation, and the JSON-schema-to-zod translation jsonSchemaToZod.
-/

/-- Model of a JavaScript (JSON-like) runtime value, as produced by
JSON.parse and inspected by the tool-end handlers. undef models the
undefined value produced by a missing property access. Numbers are
modelled as integers (the payloads the handlers inspect are only ever
compared for truthiness). -/
inductive JSValue where
  | undef
  | null
  | bool (b : Bool)
  | num (n : Int)
  | str (s : String)
  | arr (xs : List JSValue)
  | obj (fields : List (String × JSValue))

/-- JavaScript truthiness of a value: undefined, null, false, 0 and the
empty string are falsy; every array and object is truthy. -/
def truthy : JSValue → Bool
  | JSValue.undef => false
  | JSValue.null => false
  | JSValue.bool b => b
  | JSValue.num n => n != 0
  | JSValue.str s => s != ""
  | JSValue.arr _ => true
  | JSValue.obj _ => true

/-- JavaScript property access v.k: on an object, the value of the first
field named k (undefined when absent); on every other value, undefined. -/
def objGet : JSValue → String → JSValue
  | JSValue.obj fields, k =>
    match fields.lookup k with
    | some v => v
    | none => JSValue.undef
  | _, _ => JSValue.undef

/-- Side-action extraction as performed inline by handleToolEnd and the
on_tool_end branch of the event loop: JSON.parse the tool output inside a
try/catch (the argument is the parse result, none when JSON.parse threw),
then capture parsed.mapAction only when it is truthy. No tag validation
of any kind is performed by the source. -/
def extractSideAction (parsed : Option JSValue) : Option JSValue :=
  match parsed with
  | none => none
  | some doc =>
    if truthy (objGet doc "mapAction") then some (objGet doc "mapAction") else none

/-- The side-action tags the specification enumerates as recognized
(spec 4.2). The source never consults any such list; this definition
follows the specification words only, for comparison with the code. -/
def specRecognizedTags : List String := ["SHOW_MARKERS", "SHOW_ROUTE", "CENTER"]

/-- Tag of a side-action payload: its type field when that is a string. -/
def sideActionTag (v : JSValue) : Option String :=
  match objGet v "type" with
  | JSValue.str s => some s
  | _ => none

/-- JavaScript logical-or specialised to strings as used in the part
mappers of extractTextFromChunk: the left operand when truthy (non-empty),
otherwise the right operand. -/
def jsOrStr (a b : String) : String :=
  if a = "" then b else a

/-- One element of a content-parts array inside a streaming chunk: either
a plain string, an object carrying optional text and content string
fields, or something else (contributing no text). -/
inductive JPart where
  | str (s : String)
  | obj (text : Option String) (content : Option String)
  | other
deriving DecidableEq

/-- Per-part text for the chunk.content array branch of
extractTextFromChunk: a string part is returned as is, otherwise
part.text or part.content or the empty string. -/
def partTextA : JPart → String
  | JPart.str s => s
  | JPart.obj t c => jsOrStr (t.getD "") (c.getD "")
  | JPart.other => ""

/-- Per-part text for the chunk.kwargs.content array branch of
extractTextFromChunk: part.text or part.content or, when the part is a
string, the part itself, or the empty string. Extensionally this agrees
with partTextA; the source spells the two mappers differently. -/
def partTextB : JPart → String
  | JPart.str s => jsOrStr (jsOrStr "" "") s
  | JPart.obj t c => jsOrStr (t.getD "") (c.getD "")
  | JPart.other => ""

/-- String-or-parts content of a chunk field: a direct string or an array
of parts. none models an absent field or one of any other shape. -/
def ChunkContent : Type := Option (Sum String (List JPart))

/-- Shallow model of a raw streaming chunk as probed by
extractTextFromChunk: the content field, the top-level text field, the
kwargs.content and lc_kwargs.content wrappers, and message.content.
Fields that extractTextFromChunk never reads are not modelled. -/
structure Chunk where
  content : ChunkContent := none
  text : Option String := none
  kwargsContent : ChunkContent := none
  lcKwargsContent : Option String := none
  messageContent : Option String := none

/-- Probe of message.content (last probe of extractTextFromChunk): its
value when it is a truthy string, otherwise the empty string. -/
def probeMessage (c : Chunk) : String :=
  match c.messageContent with
  | some s => if s = "" then "" else s
  | none => ""

/-- Probe of lc_kwargs.content: its value when it is a truthy string,
otherwise fall through to the message.content probe. -/
def probeLcKwargs (c : Chunk) : String :=
  match c.lcKwargsContent with
  | some s => if s = "" then probeMessage c else s
  | none => probeMessage c

/-- Probe of kwargs.content: a truthy string is returned; a non-empty
parts array returns the joined part texts unconditionally (even when the
join is empty); anything else falls through to the lc_kwargs probe. -/
def probeKwargs (c : Chunk) : String :=
  match c.kwargsContent with
  | some (Sum.inl s) => if s = "" then probeLcKwargs c else s
  | some (Sum.inr parts) =>
    if parts = [] then probeLcKwargs c
    else String.join (parts.map partTextB)
  | none => probeLcKwargs c

/-- Probe of the top-level chunk.text field: returned when truthy,
otherwise fall through to the kwargs probe. -/
def probeText (c : Chunk) : String :=
  match c.text with
  | some s => if s = "" then probeKwargs c else s
  | none => probeKwargs c

/-- Model of extractTextFromChunk from the source: a missing chunk yields
the empty string; then a truthy direct string content wins; then a
non-empty content array whose joined part texts are non-empty; then the
remaining probes in source order (chunk.text, kwargs.content,
lc_kwargs.content, message.content); empty when nothing matches. -/
def extractTextFromChunk (oc : Option Chunk) : String :=
  match oc with
  | none => ""
  | some c =>
    match c.content with
    | some (Sum.inl s) => if s = "" then probeText c else s
    | some (Sum.inr parts) =>
      if parts = [] then probeText c
      else
        if String.join (parts.map partTextA) = "" then probeText c
        else String.join (parts.map partTextA)
    | none => probeText c

/-- Chunk carrying a direct string content field, the shape produced by
plain token streaming. -/
def strChunk (s : String) : Option Chunk :=
  some { content := some (Sum.inl s) }

/-- Whether the list sub occurs as a prefix of hay (character lists). -/
def leadsWith : List Char → List Char → Bool
  | [], _ => true
  | _ :: _, [] => false
  | a :: as_, b :: bs => a = b && leadsWith as_ bs

/-- Whether the list sub occurs contiguously anywhere inside hay. -/
def hasSeg (sub : List Char) : List Char → Bool
  | [] => leadsWith sub []
  | b :: bs => leadsWith sub (b :: bs) || hasSeg sub bs

/-- Model of the JavaScript String.prototype.includes check used by the
deduplication guard: whether sub occurs as a substring of hay. -/
def jsIncludes (hay sub : String) : Bool :=
  hasSeg sub.data hay.data

/-- Replacement of every underscore by a space, as the status messages do
with tool names. -/
def underscoreToSpace (s : String) : String :=
  String.map (fun ch => if ch = '_' then ' ' else ch) s

/-- Status text emitted at tool start for a named tool. -/
def usingStatus (name : String) : String :=
  "Using " ++ underscoreToSpace name ++ "..."

/-- Per-turn mutable state of the message handler: the accumulated
response text, the captured map action, the tool names seen and whether
streaming has visibly started. -/
structure TurnState where
  fullResponse : String
  mapAction : Option JSValue
  toolsUsed : List String
  streamStarted : Bool

/-- Per-turn state at turn start. -/
def initTurnState : TurnState :=
  { fullResponse := "", mapAction := none, toolsUsed := [], streamStarted := false }

/-- Outbound events toward the client, one constructor per tagged message
the backend sends: thinking status (none clears the indicator), a
streamed token, an immediate map action, the end-of-stream summary, an
error text, and the greeting response. -/
inductive OutEvent where
  | thinking (status : Option String)
  | stream (content : String)
  | mapActionEv (action : JSValue)
  | streamEnd (content : String) (action : Option JSValue)
  | error (content : String)
  | response (content : String)

/-- One occurrence observed while driving a turn, through either of the
two channels of the source: the direct callbacks (handleLLMNewToken,
handleToolStart, handleToolEnd) and the streamEvents replay loop
(on_tool_start, on_tool_end, on_chat_model_stream, on_chain_end).
cbToolEnd carries the JSON.parse result of the tool output (none when
the parse threw); evToolEnd carries event.data.output as an optional
output, itself carrying its parse result; evChunk carries the raw chunk;
evChainEnd carries the event name and event.data.output.output. -/
inductive TurnEvent where
  | cbToken (token : String)
  | cbToolStart (name : String)
  | cbToolEnd (parsed : Option JSValue)
  | evToolStart (name : String)
  | evToolEnd (output : Option (Option JSValue))
  | evChunk (chunk : Option Chunk)
  | evChainEnd (name : String) (output : Option String)

/-- One step of the turn: the handler the source runs for the given
occurrence, returning the updated per-turn state and the outbound events
it emits, in emission order. -/
def stepTurn (st : TurnState) : TurnEvent → TurnState × List OutEvent
  | TurnEvent.cbToken tok =>
    if tok = "" then (st, [])
    else if st.streamStarted then
      ({ st with fullResponse := st.fullResponse ++ tok }, [OutEvent.stream tok])
    else
      ({ st with streamStarted := true, fullResponse := st.fullResponse ++ tok },
        [OutEvent.thinking none, OutEvent.stream tok])
  | TurnEvent.cbToolStart name =>
    ({ st with toolsUsed := st.toolsUsed ++ [name] },
      [OutEvent.thinking (some (usingStatus name))])
  | TurnEvent.cbToolEnd parsed =>
    match extractSideAction parsed with
    | some a =>
      ({ st with mapAction := some a },
        [OutEvent.mapActionEv a, OutEvent.thinking (some "Generating response...")])
    | none => (st, [OutEvent.thinking (some "Generating response...")])
  | TurnEvent.evToolStart name =>
    if st.toolsUsed.contains name then (st, [])
    else
      ({ st with toolsUsed := st.toolsUsed ++ [name] },
        [OutEvent.thinking (some (usingStatus name))])
  | TurnEvent.evToolEnd output =>
    if st.mapAction.isSome then (st, [])
    else
      match output with
      | some parsed =>
        match extractSideAction parsed with
        | some a =>
          ({ st with mapAction := some a },
            [OutEvent.mapActionEv a, OutEvent.thinking (some "Generating response...")])
        | none => (st, [OutEvent.thinking (some "Generating response...")])
      | none => (st, [OutEvent.thinking (some "Generating response...")])
  | TurnEvent.evChunk chunk =>
    if extractTextFromChunk chunk = "" then (st, [])
    else if jsIncludes st.fullResponse (extractTextFromChunk chunk) then (st, [])
    else if st.streamStarted then
      ({ st with fullResponse := st.fullResponse ++ extractTextFromChunk chunk },
        [OutEvent.stream (extractTextFromChunk chunk)])
    else
      ({ st with streamStarted := true, fullResponse := st.fullResponse ++ extractTextFromChunk chunk },
        [OutEvent.thinking none, OutEvent.stream (extractTextFromChunk chunk)])
  | TurnEvent.evChainEnd name output =>
    if name = "AgentExecutor" then
      match output with
      | some out =>
        if out = "" then (st, [])
        else if st.streamStarted then (st, [])
        else ({ st with fullResponse := out }, [])
      | none => (st, [])
    else (st, [])

/-- Consumption of the whole per-turn occurrence sequence: fold stepTurn
over it, concatenating the emitted events in order. -/
def foldTurn (st : TurnState) : List TurnEvent → TurnState × List OutEvent
  | [] => (st, [])
  | e :: es =>
    ((foldTurn (stepTurn st e).1 es).1, (stepTurn st e).2 ++ (foldTurn (stepTurn st e).1 es).2)

/-- Contents of the stream (token) events of a trace, in order. -/
def streamContents (tr : List OutEvent) : List String :=
  tr.filterMap (fun e =>
    match e with
    | OutEvent.stream s => some s
    | _ => none)

/-- Payloads of the map-action events of a trace, in order. -/
def mapActionEvents (tr : List OutEvent) : List JSValue :=
  tr.filterMap (fun e =>
    match e with
    | OutEvent.mapActionEv a => some a
    | _ => none)

/-- Whether an outbound event is the null thinking status that clears the
client indicator. -/
def isClear : OutEvent → Bool
  | OutEvent.thinking none => true
  | OutEvent.thinking (some _) => false
  | OutEvent.stream _ => false
  | OutEvent.mapActionEv _ => false
  | OutEvent.streamEnd _ _ => false
  | OutEvent.error _ => false
  | OutEvent.response _ => false

/-- Whether an outbound event is an error event. -/
def isErrorEv : OutEvent → Bool
  | OutEvent.thinking _ => false
  | OutEvent.stream _ => false
  | OutEvent.mapActionEv _ => false
  | OutEvent.streamEnd _ _ => false
  | OutEvent.error _ => true
  | OutEvent.response _ => false

/-- Number of indicator-clearing thinking events in a trace. -/
def clearCount (tr : List OutEvent) : Nat :=
  tr.countP isClear

/-- One chat-history entry, a human or assistant message. -/
inductive ChatMsg where
  | human (text : String)
  | ai (text : String)
deriving DecidableEq

/-- Last n elements of a list, in order, as JavaScript slice(-n). -/
def takeRight (l : List α) (n : Nat) : List α :=
  l.drop (l.length - n)

/-- Model of JavaScript String.prototype.trim: strip leading and
trailing whitespace. -/
def jsTrim (s : String) : String :=
  String.mk (((s.data.dropWhile Char.isWhitespace).reverse.dropWhile
    Char.isWhitespace).reverse)

/-- Chat-history update after a turn, as the source performs it: push the
user message when its trim is non-empty, push the assistant message when
its trim is non-empty, then truncate to the most recent 20 entries when
the length exceeds 20. -/
def updateHistory (h : List ChatMsg) (userMessage fullResponse : String) : List ChatMsg :=
  let h1 := if jsTrim userMessage = "" then h else h ++ [ChatMsg.human userMessage]
  let h2 := if jsTrim fullResponse = "" then h1 else h1 ++ [ChatMsg.ai fullResponse]
  if h2.length > 20 then takeRight h2 20 else h2

/-- Generic error text the catch block sends to the client. -/
def genericErrorText : String :=
  "Sorry, I encountered an error processing your request. Please try again."

/-- Whole handling of one chat message, as the message handler of the source:
emit the initial thinking status, drive the agent over the occurrence
sequence, then either (agentThrows) emit the single generic error event
leaving the history untouched, or emit the stream-end summary carrying
the accumulated text and captured map action and update the history; in
both cases finish with the final indicator-clearing thinking event.
Returns the emitted trace and the resulting chat history. -/
def runTurn (history : List ChatMsg) (userMessage : String) (evs : List TurnEvent)
    (agentThrows : Bool) : List OutEvent × List ChatMsg :=
  if agentThrows then
    (OutEvent.thinking (some "Thinking...") :: (foldTurn initTurnState evs).2 ++
      [OutEvent.error genericErrorText, OutEvent.thinking none], history)
  else
    (OutEvent.thinking (some "Thinking...") :: (foldTurn initTurnState evs).2 ++
      [OutEvent.streamEnd (foldTurn initTurnState evs).1.fullResponse
          (foldTurn initTurnState evs).1.mapAction,
        OutEvent.thinking none],
      updateHistory history userMessage (foldTurn initTurnState evs).1.fullResponse)

/-- Per-connection session as kept in the store: its chat history and an
abstract transport handle (the ws object, modelled by a number). -/
structure Session where
  chatHistory : List ChatMsg
  handle : Nat
deriving DecidableEq

/-- The in-memory session store, a map from session identifier to
session. -/
def SessionStore : Type := String → Option Session

/-- Map.set: insert or overwrite the entry for a key. -/
def storeSet (m : SessionStore) (k : String) (v : Session) : SessionStore :=
  fun q => if q = k then some v else m q

/-- Map.delete: remove the entry for a key, as the close handler does. -/
def storeDelete (m : SessionStore) (k : String) : SessionStore :=
  fun q => if q = k then none else m q

/-- Last n characters of a string, as JavaScript slice(-n). -/
def strTakeRight (s : String) (n : Nat) : String :=
  String.mk (takeRight s.data n)

/-- Decimal digit characters of n, most significant first, computed with
explicit recursion depth; 20 digits cover every number below 10 to the
20th, far beyond millisecond timestamps. -/
def decimalDigitsAux : Nat → Nat → List Char
  | 0, _ => []
  | fuel + 1, n =>
    if n < 10 then [Nat.digitChar n]
    else decimalDigitsAux fuel (n / 10) ++ [Nat.digitChar (n % 10)]

/-- Model of JavaScript Number.prototype.toString for timestamps: the
decimal representation. -/
def natToDecimal (n : Nat) : String :=
  String.mk (decimalDigitsAux 20 n)

/-- Session identifier derived from the connection time, as the source
computes it: the last six characters of the decimal representation of
the millisecond timestamp. -/
def sessionIdOf (t : Nat) : String :=
  strTakeRight (natToDecimal t) 6

/-- Connection handler effect on the store: create the session with an
empty history under the identifier derived from the connection time. -/
def acceptConnection (m : SessionStore) (t : Nat) (handle : Nat) : SessionStore :=
  storeSet m (sessionIdOf t) { chatHistory := [], handle := handle }

/-- Handling of one inbound chat message at store level: look the session
up, run the turn against its history, and write the updated session
back. A missing session leaves everything unchanged. -/
def handleChat (m : SessionStore) (id : String) (userMessage : String)
    (evs : List TurnEvent) (agentThrows : Bool) : List OutEvent × SessionStore :=
  match m id with
  | none => ([], m)
  | some sess =>
    ((runTurn sess.chatHistory userMessage evs agentThrows).1,
      storeSet m id
        { chatHistory := (runTurn sess.chatHistory userMessage evs agentThrows).2,
          handle := sess.handle })

/-- A WebSocket transport handle: whether it is open, and the messages
written to it so far. -/
structure WSConn where
  isOpen : Bool
  sent : List OutEvent

/-- Model of the wsSend helper of the source: write the event only when
the socket is open, otherwise do nothing. It is a total function, the
shallow form of never throwing. -/
def wsTrySend (ws : WSConn) (ev : OutEvent) : WSConn :=
  if ws.isOpen then { ws with sent := ws.sent ++ [ev] } else ws

/-- Messages of one completed turn as history entries, in order: the
human message then the assistant message, per turn. -/
def turnsToMsgs : List (String × String) → List ChatMsg
  | [] => []
  | (u, a) :: ts => ChatMsg.human u :: ChatMsg.ai a :: turnsToMsgs ts

/-- Chat history after running the history update of the source once per
turn of the given list, starting from the given history. -/
def runTurnsHistory (h : List ChatMsg) : List (String × String) → List ChatMsg
  | [] => h
  | (u, a) :: ts => runTurnsHistory (updateHistory h u a) ts

/-- The first captured side action among the tool-end occurrences of a
turn, in arrival order. -/
def firstToolAction : List TurnEvent → Option JSValue
  | [] => none
  | TurnEvent.cbToolEnd parsed :: es =>
    (match extractSideAction parsed with
      | some a => some a
      | none => firstToolAction es)
  | TurnEvent.evToolEnd (some parsed) :: es =>
    (match extractSideAction parsed with
      | some a => some a
      | none => firstToolAction es)
  | _ :: es => firstToolAction es

/-- Occurrence sequences carrying no direct-callback tool-end, so tool
results arrive only through the event-replay channel. -/
def noCbToolEnd (evs : List TurnEvent) : Prop :=
  ∀ parsed, TurnEvent.cbToolEnd parsed ∉ evs

/-- Occurrence sequences carrying no chain-end occurrence. -/
def chainEndFree (evs : List TurnEvent) : Prop :=
  ∀ name output, TurnEvent.evChainEnd name output ∉ evs

/-- Fragment sequences that are fresh with respect to the accumulated
text: each fragment is non-empty and not already a substring of the text
accumulated before it. Under this condition the deduplication guard
forwards every fragment. -/
def dedupedFrom : String → List String → Prop
  | _, [] => True
  | acc, t :: ts => t ≠ "" ∧ jsIncludes acc t = false ∧ dedupedFrom (acc ++ t) ts

/-- Declared parameter of a tool descriptor schema: primitive type name,
optional enumerated values, optional description. -/
structure SchemaParam where
  type : String
  enum : Option (List String) := none
  description : Option String := none
deriving DecidableEq

/-- Base zod validator shapes the translation produces. -/
inductive ZodBase where
  | zstring
  | znumber
  | zboolean
  | zany
  | zenum (values : List String)
deriving DecidableEq

/-- A translated zod field: its base validator, the attached description
when one was given, and whether the field was marked optional. -/
structure ZodField where
  base : ZodBase
  described : Option String := none
  optionalFlag : Bool := false
deriving DecidableEq

/-- Base translation of one declared parameter, as the switch of
jsonSchemaToZod: a string type with a present enum becomes the enum of
exactly those literals, a plain string, number and boolean map to their
zod counterparts, and every other type name degrades to the
unconstrained any validator. -/
def zodBaseOfParam (p : SchemaParam) : ZodBase :=
  if p.type = "string" then
    match p.enum with
    | some vs => ZodBase.zenum vs
    | none => ZodBase.zstring
  else if p.type = "number" then ZodBase.znumber
  else if p.type = "boolean" then ZodBase.zboolean
  else ZodBase.zany

/-- Translation of one declared property as performed inside the loop of
jsonSchemaToZod: the base validator from the type switch, the attached
description when truthy, and the optional mark exactly when the name is
absent from the required list. -/
def zodFieldOfParam (required : List String) (key : String) (sp : SchemaParam) : ZodField :=
  { base := zodBaseOfParam sp,
    described :=
      (match sp.description with
        | some d => if d = "" then none else some d
        | none => none),
    optionalFlag := !(required.contains key) }

/-- Model of jsonSchemaToZod of the source: translate each declared
property in order. -/
def jsonSchemaToZod (properties : List (String × SchemaParam)) (required : List String) :
    List (String × ZodField) :=
  properties.map (fun kv => (kv.1, zodFieldOfParam required kv.1 kv.2))

/-- Tool output of a first concrete tool call: a centering action at
zoom 15 inside a result document. -/
def cexActA : JSValue :=
  JSValue.obj [("type", JSValue.str "CENTER"), ("zoom", JSValue.num 15)]

/-- Tool output of a second concrete tool call: a centering action at
zoom 16 inside a result document. -/
def cexActB : JSValue :=
  JSValue.obj [("type", JSValue.str "CENTER"), ("zoom", JSValue.num 16)]

/-- Parsed result document of the first concrete tool call. -/
def cexOutA : JSValue :=
  JSValue.obj [("result", JSValue.null), ("mapAction", cexActA)]

/-- Parsed result document of the second concrete tool call. -/
def cexOutB : JSValue :=
  JSValue.obj [("result", JSValue.null), ("mapAction", cexActB)]

/-- A side action carrying a tag outside the recognized set. -/
def cexUnknownAct : JSValue :=
  JSValue.obj [("type", JSValue.str "SPIN_GLOBE")]

/-- Parsed result document carrying the unknown-tag side action. -/
def cexUnknownDoc : JSValue :=
  JSValue.obj [("result", JSValue.null), ("mapAction", cexUnknownAct)]

/-- Concatenation of a list of strings, in order. -/
def concatAll : List String → String
  | [] => ""
  | s :: ss => s ++ concatAll ss

/-- The declared mode parameter of the get_directions tool descriptor. -/
def gdMode : SchemaParam :=
  { type := "string", enum := some ["driving", "walking", "bicycling"],
    description := some "Travel mode (default: driving). Note: transit is not supported." }

/-- The declared origin parameter of the get_directions tool descriptor. -/
def gdOrigin : SchemaParam :=
  { type := "string", description := some "Starting location (address or place name)" }

/-- The declared destination parameter of the get_directions tool
descriptor. -/
def gdDestination : SchemaParam :=
  { type := "string", description := some "Destination location (address or place name)" }

/-- Declared properties of the get_directions tool descriptor. -/
def gdProps : List (String × SchemaParam) :=
  [("origin", gdOrigin), ("destination", gdDestination), ("mode", gdMode)]

/-- Required parameter names of the get_directions tool descriptor. -/
def gdRequired : List String := ["origin", "destination"]

/-- Folding a concatenated occurrence list folds the pieces in order. -/
theorem foldTurn_append (xs ys : List TurnEvent) (st : TurnState) :
    foldTurn st (xs ++ ys) =
      ((foldTurn (foldTurn st xs).1 ys).1,
        (foldTurn st xs).2 ++ (foldTurn (foldTurn st xs).1 ys).2) := by
  induction xs generalizing st with
  | nil => simp [foldTurn]
  | cons e es ih => simp [foldTurn, ih, List.append_assoc]

/-- Stream contents of a concatenated trace. -/
theorem streamContents_append (a b : List OutEvent) :
    streamContents (a ++ b) = streamContents a ++ streamContents b :=
  List.filterMap_append a b _

/-- Map-action payloads of a concatenated trace. -/
theorem mapActionEvents_append (a b : List OutEvent) :
    mapActionEvents (a ++ b) = mapActionEvents a ++ mapActionEvents b :=
  List.filterMap_append a b _

/-- Clear count of a concatenated trace. -/
theorem clearCount_append (a b : List OutEvent) :
    clearCount (a ++ b) = clearCount a + clearCount b :=
  List.countP_append isClear a b

/-- No step of the turn ever emits an error event. -/
theorem stepTurn_error_free (st : TurnState) (e : TurnEvent) :
    (stepTurn st e).2.filter isErrorEv = [] := by
  cases e <;> simp only [stepTurn] <;> (repeat' split) <;> simp [isErrorEv, List.filter]

/-- The turn fold never emits an error event. -/
theorem foldTurn_error_free (evs : List TurnEvent) : ∀ st : TurnState,
    (foldTurn st evs).2.filter isErrorEv = [] := by
  induction evs with
  | nil => intro st; simp [foldTurn]
  | cons e es ih =>
    intro st
    simp [foldTurn, List.filter_append, ih, stepTurn_error_free]

/-- A step never resets the stream-started flag. -/
theorem stepTurn_started_mono (st : TurnState) (e : TurnEvent)
    (h : st.streamStarted = true) : (stepTurn st e).1.streamStarted = true := by
  cases e <;> simp only [stepTurn] <;> (repeat' split) <;> simp_all

/-- The turn fold never resets the stream-started flag. -/
theorem foldTurn_started_mono (evs : List TurnEvent) : ∀ st : TurnState,
    st.streamStarted = true → (foldTurn st evs).1.streamStarted = true := by
  induction evs with
  | nil => intro st h; simpa [foldTurn] using h
  | cons e es ih =>
    intro st h
    simp only [foldTurn]
    exact ih _ (stepTurn_started_mono st e h)

/-- A step emits the indicator-clearing status exactly when it flips the
stream-started flag from false to true. -/
theorem stepTurn_clearCount (st : TurnState) (e : TurnEvent) :
    clearCount (stepTurn st e).2 =
      if st.streamStarted then 0 else if (stepTurn st e).1.streamStarted then 1 else 0 := by
  cases e <;> simp only [stepTurn] <;> (repeat' split) <;>
    simp_all [clearCount, isClear, List.countP_cons, List.countP_nil]

/-- The turn fold emits the indicator-clearing status exactly once when
streaming starts during it, and never otherwise. -/
theorem foldTurn_clearCount (evs : List TurnEvent) : ∀ st : TurnState,
    clearCount (foldTurn st evs).2 =
      if st.streamStarted then 0 else if (foldTurn st evs).1.streamStarted then 1 else 0 := by
  induction evs with
  | nil => intro st; cases h : st.streamStarted <;> simp [foldTurn, clearCount, h]
  | cons e es ih =>
    intro st
    simp only [foldTurn, clearCount_append]
    rw [ih, stepTurn_clearCount]
    by_cases h : st.streamStarted = true
    · have h1 := stepTurn_started_mono st e h
      simp [h, h1]
    · have h0 : st.streamStarted = false := by
        cases hb : st.streamStarted
        · rfl
        · exact absurd hb h
      by_cases h2 : (stepTurn st e).1.streamStarted = true
      · have h3 := foldTurn_started_mono es _ h2
        simp [h0, h2, h3]
      · have h4 : (stepTurn st e).1.streamStarted = false := by
          cases hb : (stepTurn st e).1.streamStarted
          · rfl
          · exact absurd hb h2
        simp [h0, h4]

/-- A step ends with the stream-started flag set exactly when it was
already set or the step emitted a stream token. -/
theorem stepTurn_started (st : TurnState) (e : TurnEvent) :
    ((stepTurn st e).1.streamStarted = true ↔
      st.streamStarted = true ∨ streamContents (stepTurn st e).2 ≠ []) := by
  cases e <;> simp only [stepTurn] <;> (repeat' split) <;>
    simp_all [streamContents]

/-- The turn fold ends with the stream-started flag set exactly when it
was already set or some stream token was emitted. -/
theorem foldTurn_started (evs : List TurnEvent) : ∀ st : TurnState,
    ((foldTurn st evs).1.streamStarted = true ↔
      st.streamStarted = true ∨ streamContents (foldTurn st evs).2 ≠ []) := by
  induction evs with
  | nil => intro st; simp [foldTurn, streamContents]
  | cons e es ih =>
    intro st
    simp only [foldTurn, streamContents_append]
    rw [ih, stepTurn_started]
    simp only [ne_eq, List.append_eq_nil, not_and_or]
    tauto

/-- Concatenation distributes over list append. -/
theorem concatAll_append (a b : List String) :
    concatAll (a ++ b) = concatAll a ++ concatAll b := by
  induction a with
  | nil => simp [concatAll, String.empty_append]
  | cons s ss ih => simp [concatAll, ih, String.append_assoc]

/-- A chain-end-free occurrence list decomposes at its head. -/
theorem chainEndFree_cons (e : TurnEvent) (es : List TurnEvent)
    (h : chainEndFree (e :: es)) :
    (∀ name output, e ≠ TurnEvent.evChainEnd name output) ∧ chainEndFree es := by
  constructor
  · intro name output he
    exact h name output (by simp [he])
  · intro name output hm
    exact h name output (by simp [hm])

/-- Outside chain end, a step grows the accumulated text by exactly the
stream tokens it emits. -/
theorem stepTurn_fullResponse (st : TurnState) (e : TurnEvent)
    (h : ∀ name output, e ≠ TurnEvent.evChainEnd name output) :
    (stepTurn st e).1.fullResponse =
      st.fullResponse ++ concatAll (streamContents (stepTurn st e).2) := by
  cases e <;> first
    | exact absurd rfl (h _ _)
    | (simp only [stepTurn] <;> (repeat' split) <;>
        simp_all [streamContents, concatAll, String.append_empty, String.append_assoc])

/-- Over a chain-end-free occurrence list, the accumulated text equals
the initial text followed by the concatenation of all emitted stream
tokens, in order. -/
theorem foldTurn_fullResponse (evs : List TurnEvent) : ∀ st : TurnState,
    chainEndFree evs →
    (foldTurn st evs).1.fullResponse =
      st.fullResponse ++ concatAll (streamContents (foldTurn st evs).2) := by
  induction evs with
  | nil => intro st _; simp [foldTurn, streamContents, concatAll, String.append_empty]
  | cons e es ih =>
    intro st h
    have hh := chainEndFree_cons e es h
    simp only [foldTurn, streamContents_append]
    rw [ih _ hh.2, stepTurn_fullResponse st e hh.1]
    rw [concatAll_append, String.append_assoc]

/-- An occurrence list without callback tool-ends decomposes at its
head. -/
theorem noCbToolEnd_cons (e : TurnEvent) (es : List TurnEvent)
    (h : noCbToolEnd (e :: es)) :
    (∀ parsed, e ≠ TurnEvent.cbToolEnd parsed) ∧ noCbToolEnd es := by
  constructor
  · intro parsed he
    exact h parsed (by simp [he])
  · intro parsed hm
    exact h parsed (by simp [hm])

/-- Outside the callback tool-end, a step with a captured map action
keeps it and emits no further map-action event. -/
theorem stepTurn_mapAction_frozen (st : TurnState) (e : TurnEvent) (a : JSValue)
    (hcb : ∀ parsed, e ≠ TurnEvent.cbToolEnd parsed)
    (h : st.mapAction = some a) :
    (stepTurn st e).1.mapAction = some a ∧ mapActionEvents (stepTurn st e).2 = [] := by
  cases e <;> first
    | exact absurd rfl (hcb _)
    | (simp only [stepTurn] <;> (repeat' split) <;> simp_all [mapActionEvents])

/-- Over an occurrence list without callback tool-ends, a captured map
action stays captured and no further map-action event is emitted. -/
theorem foldTurn_mapAction_frozen (evs : List TurnEvent) : ∀ (st : TurnState) (a : JSValue),
    noCbToolEnd evs → st.mapAction = some a →
    (foldTurn st evs).1.mapAction = some a ∧ mapActionEvents (foldTurn st evs).2 = [] := by
  induction evs with
  | nil => intro st a _ h; simpa [foldTurn, mapActionEvents] using h
  | cons e es ih =>
    intro st a hcb h
    have hh := noCbToolEnd_cons e es hcb
    have hs := stepTurn_mapAction_frozen st e a hh.1 h
    have hr := ih (stepTurn st e).1 a hh.2 hs.1
    simp only [foldTurn, mapActionEvents_append]
    exact ⟨hr.1, by rw [hs.2, hr.2]; simp⟩

/-- Over an occurrence list without callback tool-ends and starting with
no captured action, the emitted map-action events are exactly the first
valid tool action (when one exists), and it ends up captured. -/
theorem foldTurn_mapAction_first (evs : List TurnEvent) : ∀ st : TurnState,
    noCbToolEnd evs → st.mapAction = none →
    (foldTurn st evs).1.mapAction = firstToolAction evs ∧
      mapActionEvents (foldTurn st evs).2 = (firstToolAction evs).toList := by
  induction evs with
  | nil => intro st _ h; simp [foldTurn, mapActionEvents, firstToolAction, h]
  | cons e es ih =>
    intro st hcb h
    have hh := noCbToolEnd_cons e es hcb
    simp only [foldTurn, mapActionEvents_append]
    cases e with
    | cbToolEnd parsed => exact absurd rfl (hh.1 parsed)
    | evToolEnd output =>
      cases output with
      | none =>
        have hst : (stepTurn st (TurnEvent.evToolEnd none)).1 = st := by
          simp [stepTurn, h]
        have hr := ih st hh.2 h
        rw [hst]
        constructor
        · rw [hr.1]; simp [firstToolAction]
        · rw [hr.2, show mapActionEvents (stepTurn st (TurnEvent.evToolEnd none)).2 = [] from by
            simp [stepTurn, h, mapActionEvents]]
          simp [firstToolAction]
      | some parsed =>
        cases hx : extractSideAction parsed with
        | none =>
          have hst : (stepTurn st (TurnEvent.evToolEnd (some parsed))).1 = st := by
            simp [stepTurn, h, hx]
          have hr := ih st hh.2 h
          rw [hst]
          constructor
          · rw [hr.1]; simp [firstToolAction, hx]
          · rw [hr.2, show mapActionEvents (stepTurn st (TurnEvent.evToolEnd (some parsed))).2 = []
                from by simp [stepTurn, h, hx, mapActionEvents]]
            simp [firstToolAction, hx]
        | some a =>
          have hst : (stepTurn st (TurnEvent.evToolEnd (some parsed))).1 =
              { st with mapAction := some a } := by
            simp [stepTurn, h, hx]
          have hfroz := foldTurn_mapAction_frozen es { st with mapAction := some a } a hh.2 rfl
          rw [hst]
          constructor
          · rw [hfroz.1]
            simp [firstToolAction, hx]
          · rw [hfroz.2, show mapActionEvents (stepTurn st (TurnEvent.evToolEnd (some parsed))).2 =
                [a] from by simp [stepTurn, h, hx, mapActionEvents]]
            simp [firstToolAction, hx]
    | cbToken tok =>
      have hst : (stepTurn st (TurnEvent.cbToken tok)).1.mapAction = none := by
        simp only [stepTurn] <;> (repeat' split) <;> simp [h]
      have hr := ih _ hh.2 hst
      refine ⟨by simpa [firstToolAction] using hr.1, ?_⟩
      rw [show mapActionEvents (stepTurn st (TurnEvent.cbToken tok)).2 = [] from by
        simp only [stepTurn] <;> (repeat' split) <;> simp [mapActionEvents]]
      simpa [firstToolAction] using hr.2
    | cbToolStart name =>
      have hst : (stepTurn st (TurnEvent.cbToolStart name)).1.mapAction = none := by
        simp [stepTurn, h]
      have hr := ih _ hh.2 hst
      refine ⟨by simpa [firstToolAction] using hr.1, ?_⟩
      rw [show mapActionEvents (stepTurn st (TurnEvent.cbToolStart name)).2 = [] from by
        simp [stepTurn, mapActionEvents]]
      simpa [firstToolAction] using hr.2
    | evToolStart name =>
      have hst : (stepTurn st (TurnEvent.evToolStart name)).1.mapAction = none := by
        simp only [stepTurn] <;> (repeat' split) <;> simp [h]
      have hr := ih _ hh.2 hst
      refine ⟨by simpa [firstToolAction] using hr.1, ?_⟩
      rw [show mapActionEvents (stepTurn st (TurnEvent.evToolStart name)).2 = [] from by
        simp only [stepTurn] <;> (repeat' split) <;> simp [mapActionEvents]]
      simpa [firstToolAction] using hr.2
    | evChunk chunk =>
      have hst : (stepTurn st (TurnEvent.evChunk chunk)).1.mapAction = none := by
        simp only [stepTurn] <;> (repeat' split) <;> simp [h]
      have hr := ih _ hh.2 hst
      refine ⟨by simpa [firstToolAction] using hr.1, ?_⟩
      rw [show mapActionEvents (stepTurn st (TurnEvent.evChunk chunk)).2 = [] from by
        simp only [stepTurn] <;> (repeat' split) <;> simp [mapActionEvents]]
      simpa [firstToolAction] using hr.2
    | evChainEnd name output =>
      have hst : (stepTurn st (TurnEvent.evChainEnd name output)).1.mapAction = none := by
        simp only [stepTurn] <;> (repeat' split) <;> simp [h]
      have hr := ih _ hh.2 hst
      refine ⟨by simpa [firstToolAction] using hr.1, ?_⟩
      rw [show mapActionEvents (stepTurn st (TurnEvent.evChainEnd name output)).2 = [] from by
        simp only [stepTurn] <;> (repeat' split) <;> simp [mapActionEvents]]
      simpa [firstToolAction] using hr.2

/-- Over a chunk sequence whose extracted fragments are fresh with
respect to the accumulated text, the event-channel handler forwards
every fragment exactly once, in order, and accumulates exactly their
concatenation. -/
theorem foldTurn_fresh (chunks : List (Option Chunk)) : ∀ st : TurnState,
    dedupedFrom st.fullResponse (chunks.map extractTextFromChunk) →
    streamContents (foldTurn st (chunks.map TurnEvent.evChunk)).2 =
        chunks.map extractTextFromChunk ∧
      (foldTurn st (chunks.map TurnEvent.evChunk)).1.fullResponse =
        st.fullResponse ++ concatAll (chunks.map extractTextFromChunk) := by
  induction chunks with
  | nil =>
    intro st _
    simp [foldTurn, streamContents, concatAll, String.append_empty]
  | cons c cs ih =>
    intro st hfresh
    simp only [List.map_cons, dedupedFrom] at hfresh
    obtain ⟨hne, hinc, hrest⟩ := hfresh
    obtain ⟨fr, ma, tu, ss⟩ := st
    dsimp only at hinc hrest ⊢
    have hr := ih ⟨fr ++ extractTextFromChunk c, ma, tu, true⟩ (by simpa using hrest)
    simp only [List.map_cons, foldTurn]
    have hstep : stepTurn ⟨fr, ma, tu, ss⟩ (TurnEvent.evChunk c) =
        (⟨fr ++ extractTextFromChunk c, ma, tu, true⟩,
          if ss then [OutEvent.stream (extractTextFromChunk c)]
          else [OutEvent.thinking none, OutEvent.stream (extractTextFromChunk c)]) := by
      cases ss <;> simp [stepTurn, hne, hinc]
    rw [hstep]
    constructor
    · rw [streamContents_append, hr.1]
      cases ss <;> simp [streamContents]
    · rw [hr.2]
      simp [concatAll, String.append_assoc]

/-- The last n elements of a list are the reversal of the first n
elements of its reversal. -/
theorem takeRight_eq_reverse_take (l : List α) (n : Nat) :
    takeRight l n = (l.reverse.take n).reverse := by
  unfold takeRight
  rw [List.reverse_take, List.length_reverse, List.reverse_reverse]

/-- A list of length at most n is its own last n elements. -/
theorem takeRight_of_le (l : List α) (n : Nat) (h : l.length ≤ n) :
    takeRight l n = l := by
  unfold takeRight
  have h0 : l.length - n = 0 := by omega
  simp [h0]

/-- Taking the last n elements after appending to an already-truncated
list gives the same result as truncating the whole concatenation. -/
theorem takeRight_absorb (l m : List α) (n : Nat) :
    takeRight (takeRight l n ++ m) n = takeRight (l ++ m) n := by
  rw [takeRight_eq_reverse_take, takeRight_eq_reverse_take, takeRight_eq_reverse_take]
  rw [List.reverse_append, List.reverse_append, List.reverse_reverse]
  rw [List.take_append_eq_append_take, List.take_append_eq_append_take, List.take_take]
  rw [Nat.min_eq_left (Nat.sub_le n m.reverse.length)]

/-- The last n elements of an append whose right part has length n are
exactly that right part. -/
theorem takeRight_append_exact (l m : List α) (n : Nat) (h : m.length = n) :
    takeRight (l ++ m) n = m := by
  unfold takeRight
  have h1 : (l ++ m).length - n = l.length := by
    simp [List.length_append, h]
  rw [h1, List.drop_left]

/-- Length of the last n elements. -/
theorem takeRight_length (l : List α) (n : Nat) :
    (takeRight l n).length = min n l.length := by
  unfold takeRight
  simp [List.length_drop]
  omega

/-- For a completed turn (both trimmed texts non-empty), the history
update appends the two entries and keeps the last 20. -/
theorem updateHistory_complete (h : List ChatMsg) (u a : String)
    (hu : jsTrim u ≠ "") (ha : jsTrim a ≠ "") :
    updateHistory h u a = takeRight (h ++ [ChatMsg.human u, ChatMsg.ai a]) 20 := by
  unfold updateHistory
  simp only [hu, ha, if_false]
  have happ : (h ++ [ChatMsg.human u]) ++ [ChatMsg.ai a] =
      h ++ [ChatMsg.human u, ChatMsg.ai a] := by
    simp
  rw [happ]
  by_cases hlen : (h ++ [ChatMsg.human u, ChatMsg.ai a]).length > 20
  · rw [if_pos hlen]
  · rw [if_neg hlen, takeRight_of_le _ _ (by omega)]

/-- Turn flattening distributes over append. -/
theorem turnsToMsgs_append (a b : List (String × String)) :
    turnsToMsgs (a ++ b) = turnsToMsgs a ++ turnsToMsgs b := by
  induction a with
  | nil => simp [turnsToMsgs]
  | cons p ps ih =>
    obtain ⟨u, v⟩ := p
    simp [turnsToMsgs, ih]

/-- Each turn contributes exactly two history entries. -/
theorem turnsToMsgs_length (ts : List (String × String)) :
    (turnsToMsgs ts).length = 2 * ts.length := by
  induction ts with
  | nil => simp [turnsToMsgs]
  | cons p ps ih =>
    obtain ⟨u, v⟩ := p
    simp [turnsToMsgs, ih]
    omega

/-- Running the per-turn history update over completed turns, starting
from a truncated history, yields the truncation of the full message
sequence. -/
theorem runTurnsHistory_takeRight (ts : List (String × String)) :
    ∀ pre : List ChatMsg,
    (∀ p ∈ ts, jsTrim p.1 ≠ "" ∧ jsTrim p.2 ≠ "") →
    runTurnsHistory (takeRight pre 20) ts = takeRight (pre ++ turnsToMsgs ts) 20 := by
  induction ts with
  | nil => intro pre _; simp [runTurnsHistory, turnsToMsgs]
  | cons p ps ih =>
    intro pre hc
    obtain ⟨u, v⟩ := p
    have hp := hc (u, v) (by simp)
    simp only [runTurnsHistory]
    rw [updateHistory_complete _ _ _ hp.1 hp.2, takeRight_absorb,
      ih (pre ++ [ChatMsg.human u, ChatMsg.ai v]) (fun q hq => hc q (by simp [hq]))]
    simp [turnsToMsgs, List.append_assoc]

/-- The trace of one chat message is the initial thinking status, the
fold trace, the path-dependent summary event, and the final clear. -/
theorem runTurn_trace_decomp (history : List ChatMsg) (userMessage : String)
    (evs : List TurnEvent) (agentThrows : Bool) :
    (runTurn history userMessage evs agentThrows).1 =
      (OutEvent.thinking (some "Thinking...") :: ((foldTurn initTurnState evs).2 ++
        [if agentThrows then OutEvent.error genericErrorText
          else OutEvent.streamEnd (foldTurn initTurnState evs).1.fullResponse
            (foldTurn initTurnState evs).1.mapAction])) ++
        [OutEvent.thinking none] := by
  cases agentThrows <;> simp [runTurn]

/-- The clear count of a full-turn trace is the fold count plus the
terminal clear, whenever the summary event is not itself a clear. -/
theorem clearCount_wrap (F : List OutEvent) (X : OutEvent)
    (hX : X ≠ OutEvent.thinking none) :
    clearCount ((OutEvent.thinking (some "Thinking...") :: (F ++ [X])) ++
        [OutEvent.thinking none]) = clearCount F + 1 := by
  cases X with
  | thinking o =>
    cases o with
    | none => exact absurd rfl hX
    | some s =>
      simp [clearCount, List.countP_cons, List.countP_append, List.countP_nil, isClear]
  | stream s =>
    simp [clearCount, List.countP_cons, List.countP_append, List.countP_nil, isClear]
  | mapActionEv a =>
    simp [clearCount, List.countP_cons, List.countP_append, List.countP_nil, isClear]
  | streamEnd c a =>
    simp [clearCount, List.countP_cons, List.countP_append, List.countP_nil, isClear]
  | error c =>
    simp [clearCount, List.countP_cons, List.countP_append, List.countP_nil, isClear]
  | response c =>
    simp [clearCount, List.countP_cons, List.countP_append, List.countP_nil, isClear]

/-- The stream contents of a full-turn trace are those of the fold,
whenever the summary event is not a stream token. -/
theorem streamContents_wrap (F : List OutEvent) (X : OutEvent)
    (hX : ∀ s, X ≠ OutEvent.stream s) :
    streamContents ((OutEvent.thinking (some "Thinking...") :: (F ++ [X])) ++
        [OutEvent.thinking none]) = streamContents F := by
  cases X <;> first
    | exact absurd rfl (hX _)
    | simp [streamContents, List.filterMap_cons, List.filterMap_append]

/-- C3: on every path of a turn (streaming success, zero-token fallback
and failure alike), the very last outbound event is the
indicator-clearing status(null), emitted there exactly once: the trace
holds exactly one clearing event plus only the single additional one
emitted when streaming visibly starts, so the client indicator is always
cleared at turn end. -/
theorem status_clear_terminal (history : List ChatMsg) (userMessage : String)
    (evs : List TurnEvent) (agentThrows : Bool) :
    (runTurn history userMessage evs agentThrows).1.getLast? =
        some (OutEvent.thinking none) ∧
      clearCount (runTurn history userMessage evs agentThrows).1 =
        (if streamContents (runTurn history userMessage evs agentThrows).1 = []
          then 1 else 2) := by
  have hF := foldTurn_clearCount evs initTurnState
  have hS := foldTurn_started evs initTurnState
  rw [show initTurnState.streamStarted = false from rfl] at hF hS
  simp only [Bool.false_eq_true, if_false, false_or] at hF hS
  rw [runTurn_trace_decomp]
  have hmain : ∀ X : OutEvent, X ≠ OutEvent.thinking none → (∀ s, X ≠ OutEvent.stream s) →
      (((OutEvent.thinking (some "Thinking...") :: ((foldTurn initTurnState evs).2 ++ [X])) ++
          [OutEvent.thinking none]).getLast? = some (OutEvent.thinking none) ∧
        clearCount ((OutEvent.thinking (some "Thinking...") ::
            ((foldTurn initTurnState evs).2 ++ [X])) ++ [OutEvent.thinking none]) =
          (if streamContents ((OutEvent.thinking (some "Thinking...") ::
              ((foldTurn initTurnState evs).2 ++ [X])) ++ [OutEvent.thinking none]) = []
            then 1 else 2)) := by
    intro X hX1 hX2
    constructor
    · exact List.getLast?_concat _
    · rw [clearCount_wrap _ _ hX1, streamContents_wrap _ _ hX2]
      by_cases hsc : streamContents (foldTurn initTurnState evs).2 = []
      · have hst : (foldTurn initTurnState evs).1.streamStarted = false := by
          cases hv : (foldTurn initTurnState evs).1.streamStarted
          · rfl
          · exact absurd (hS.1 hv) (by simp [hsc])
        rw [hst] at hF
        simp only [Bool.false_eq_true, if_false] at hF
        rw [if_pos hsc]
        omega
      · have hst : (foldTurn initTurnState evs).1.streamStarted = true := hS.2 hsc
        rw [hst] at hF
        simp at hF
        rw [if_neg hsc]
        omega
  cases agentThrows
  · simpa using hmain
      (OutEvent.streamEnd (foldTurn initTurnState evs).1.fullResponse
        (foldTurn initTurnState evs).1.mapAction)
      (by simp) (by simp)
  · simpa using hmain (OutEvent.error genericErrorText) (by simp) (by simp)

/-- C7: when the agent throws while driving a turn, the client receives
exactly one outbound error event, carrying the generic error text; the
session is not torn down: it is still in the store afterward, with its
history unchanged, usable for the next turn. -/
theorem turn_failure_single_error (store : SessionStore) (id : String)
    (userMessage : String) (evs : List TurnEvent) (sess : Session)
    (hs : store id = some sess) :
    (handleChat store id userMessage evs true).1.filter isErrorEv =
        [OutEvent.error genericErrorText] ∧
      (handleChat store id userMessage evs true).2 id = some sess := by
  obtain ⟨hist, hd⟩ := sess
  simp only [handleChat, hs]
  constructor
  · simp only [runTurn, if_true]
    simp [List.filter_append, List.filter_cons, isErrorEv, foldTurn_error_free]
  · simp [runTurn, storeSet]

/-- Witness for C7 at a concrete store, session and turn. -/
theorem turn_failure_single_error_witness :
    (handleChat (storeSet (fun _ => none) "414141" { chatHistory := [], handle := 1 })
        "414141" "hi" [] true).1.filter isErrorEv = [OutEvent.error genericErrorText] ∧
      (handleChat (storeSet (fun _ => none) "414141" { chatHistory := [], handle := 1 })
        "414141" "hi" [] true).2 "414141" = some { chatHistory := [], handle := 1 } :=
  turn_failure_single_error _ "414141" "hi" [] _ (by simp [storeSet])

/-- C9: for a turn whose agent completes with final output finalOut
(the chain-end occurrence arriving last, after a chain-end-free body),
the text carried by the final stream-end event is the non-streamed final
answer when no token was streamed, and the concatenation of exactly the
streamed tokens otherwise. -/
theorem final_text_fallback (history : List ChatMsg) (userMessage : String)
    (body : List TurnEvent) (finalOut : String) (hfree : chainEndFree body) :
    (streamContents (foldTurn initTurnState
          (body ++ [TurnEvent.evChainEnd "AgentExecutor" (some finalOut)])).2 = [] →
        (foldTurn initTurnState
          (body ++ [TurnEvent.evChainEnd "AgentExecutor" (some finalOut)])).1.fullResponse =
          finalOut) ∧
      (streamContents (foldTurn initTurnState
          (body ++ [TurnEvent.evChainEnd "AgentExecutor" (some finalOut)])).2 ≠ [] →
        (foldTurn initTurnState
          (body ++ [TurnEvent.evChainEnd "AgentExecutor" (some finalOut)])).1.fullResponse =
          concatAll (streamContents (foldTurn initTurnState
            (body ++ [TurnEvent.evChainEnd "AgentExecutor" (some finalOut)])).2)) ∧
      (runTurn history userMessage
          (body ++ [TurnEvent.evChainEnd "AgentExecutor" (some finalOut)]) false).1 =
        (OutEvent.thinking (some "Thinking...") :: ((foldTurn initTurnState
            (body ++ [TurnEvent.evChainEnd "AgentExecutor" (some finalOut)])).2 ++
          [OutEvent.streamEnd
            (foldTurn initTurnState
              (body ++ [TurnEvent.evChainEnd "AgentExecutor" (some finalOut)])).1.fullResponse
            (foldTurn initTurnState
              (body ++ [TurnEvent.evChainEnd "AgentExecutor" (some finalOut)])).1.mapAction])) ++
          [OutEvent.thinking none] := by
  have hdec := foldTurn_append body [TurnEvent.evChainEnd "AgentExecutor" (some finalOut)]
    initTurnState
  have hful := foldTurn_fullResponse body initTurnState hfree
  have hsta := foldTurn_started body initTurnState
  rw [show initTurnState.streamStarted = false from rfl] at hsta
  simp only [Bool.false_eq_true, false_or] at hsta
  rw [show initTurnState.fullResponse = "" from rfl, String.empty_append] at hful
  have hstep : ∀ st : TurnState,
      foldTurn st [TurnEvent.evChainEnd "AgentExecutor" (some finalOut)] =
        (if finalOut = "" then st
          else if st.streamStarted then st else { st with fullResponse := finalOut }, []) := by
    intro st
    by_cases h0 : finalOut = ""
    · simp [foldTurn, stepTurn, h0]
    · by_cases h1 : st.streamStarted = true
      · simp [foldTurn, stepTurn, h0, h1]
      · have h1f : st.streamStarted = false := by
          cases hv : st.streamStarted
          · rfl
          · exact absurd hv h1
        simp [foldTurn, stepTurn, h0, h1f]
  refine ⟨?_, ?_, runTurn_trace_decomp history userMessage _ false⟩
  · intro hnone
    rw [hdec, hstep] at hnone ⊢
    dsimp only at hnone ⊢
    have hbody : streamContents (foldTurn initTurnState body).2 = [] := by
      simpa [streamContents] using hnone
    have hnst : (foldTurn initTurnState body).1.streamStarted = false := by
      cases hv : (foldTurn initTurnState body).1.streamStarted
      · rfl
      · exact absurd (hsta.1 hv) (by simp [hbody])
    by_cases h0 : finalOut = ""
    · rw [if_pos h0, hful, hbody, h0]
      rfl
    · rw [if_neg h0, hnst]
      simp
  · intro hsome
    rw [hdec, hstep] at hsome ⊢
    dsimp only at hsome ⊢
    simp only [List.append_nil] at hsome ⊢
    have hst : (foldTurn initTurnState body).1.streamStarted = true := hsta.2 hsome
    by_cases h0 : finalOut = ""
    · rw [if_pos h0, hful]
    · rw [if_neg h0, hst]
      simp [hful]

/-- Witness for C9 on a concrete streamed turn and, inside the same
conjunction, a concrete application of the fallback direction. -/
theorem final_text_fallback_witness :
    chainEndFree [TurnEvent.cbToken "Hi"] ∧
      (streamContents (foldTurn initTurnState
          ([TurnEvent.cbToken "Hi"] ++
            [TurnEvent.evChainEnd "AgentExecutor" (some "full answer")])).2 ≠ [] →
        (foldTurn initTurnState
          ([TurnEvent.cbToken "Hi"] ++
            [TurnEvent.evChainEnd "AgentExecutor" (some "full answer")])).1.fullResponse =
          concatAll (streamContents (foldTurn initTurnState
            ([TurnEvent.cbToken "Hi"] ++
              [TurnEvent.evChainEnd "AgentExecutor" (some "full answer")])).2)) :=
  ⟨by intro n o h; simp at h,
    (final_text_fallback [] "q" [TurnEvent.cbToken "Hi"] "full answer"
      (by intro n o h; simp at h)).2.1⟩

/-- Counterexample to C1 as stated: two event-channel chunks whose
underlying texts are "ab" then "a" (underlying text T = "aba"); the
substring deduplication guard drops the second fragment because it
already occurs inside the accumulated text, so the concatenation of the
forwarded tokens is "ab", not T: genuinely new repeated content is
lost. -/
theorem dedup_drops_repeated_text_cex :
    ([strChunk "ab", strChunk "a"].map extractTextFromChunk) = ["ab", "a"] ∧
      concatAll ["ab", "a"] = "aba" ∧
      streamContents (foldTurn initTurnState
          ([strChunk "ab", strChunk "a"].map TurnEvent.evChunk)).2 = ["ab"] ∧
      concatAll (streamContents (foldTurn initTurnState
          ([strChunk "ab", strChunk "a"].map TurnEvent.evChunk)).2) = "ab" ∧
      ("ab" : String) ≠ "aba" := by
  refine ⟨rfl, rfl, rfl, rfl, by decide⟩

/-- C1 (amended): the forward step loses no fragment and duplicates no
fragment provided every extracted fragment is non-empty and not already
a substring of the text accumulated before it; under that freshness
condition the emitted token sequence is exactly the extracted fragment
sequence and the accumulated text is exactly its concatenation T. A
fragment that repeats earlier accumulated text is dropped by the
substring guard (see the counterexample), so the original unconditional
statement fails. -/
theorem stream_forward_exact_of_fresh (chunks : List (Option Chunk))
    (hfresh : dedupedFrom "" (chunks.map extractTextFromChunk)) :
    streamContents (foldTurn initTurnState (chunks.map TurnEvent.evChunk)).2 =
        chunks.map extractTextFromChunk ∧
      (foldTurn initTurnState (chunks.map TurnEvent.evChunk)).1.fullResponse =
        concatAll (chunks.map extractTextFromChunk) := by
  have h := foldTurn_fresh chunks initTurnState (by simpa using hfresh)
  exact ⟨h.1, by simpa using h.2⟩

/-- Witness for the amended C1 on two concrete fresh chunks. -/
theorem stream_forward_exact_witness :
    dedupedFrom "" ([strChunk "He", strChunk "llo"].map extractTextFromChunk) ∧
      streamContents (foldTurn initTurnState
          ([strChunk "He", strChunk "llo"].map TurnEvent.evChunk)).2 =
        [strChunk "He", strChunk "llo"].map extractTextFromChunk ∧
      (foldTurn initTurnState
          ([strChunk "He", strChunk "llo"].map TurnEvent.evChunk)).1.fullResponse =
        concatAll ([strChunk "He", strChunk "llo"].map extractTextFromChunk) := by
  have hf : dedupedFrom "" ([strChunk "He", strChunk "llo"].map extractTextFromChunk) := by
    simp only [List.map_cons, List.map_nil, dedupedFrom]
    exact ⟨by decide, by decide, by decide, by decide, trivial⟩
  exact ⟨hf, (stream_forward_exact_of_fresh _ hf).1, (stream_forward_exact_of_fresh _ hf).2⟩

/-- Counterexample to C2 as stated: two callback-channel tool ends, each
carrying a valid map action; the callback handler has no first-wins
guard, so two map-action events are emitted in one turn, and the captured
action carried by the final event is the second (last) one, not the
first. -/
theorem sideAction_multiple_emissions_cex :
    mapActionEvents (foldTurn initTurnState
        [TurnEvent.cbToolEnd (some cexOutA), TurnEvent.cbToolEnd (some cexOutB)]).2 =
      [cexActA, cexActB] ∧
    (mapActionEvents (foldTurn initTurnState
        [TurnEvent.cbToolEnd (some cexOutA), TurnEvent.cbToolEnd (some cexOutB)]).2).length = 2 ∧
    (foldTurn initTurnState
        [TurnEvent.cbToolEnd (some cexOutA), TurnEvent.cbToolEnd (some cexOutB)]).1.mapAction =
      some cexActB ∧
    objGet cexActA "zoom" = JSValue.num 15 ∧
    objGet cexActB "zoom" = JSValue.num 16 :=
  ⟨rfl, rfl, rfl, rfl, rfl⟩

/-- C2 (amended): on the event-replay channel the first-wins rule does
hold — over any turn whose tool results arrive only through the
event-replay channel, at most one map-action event is emitted (none when
no tool output carries a valid action), it carries the first valid
action, and that same action is the captured one carried by the final
event. The direct callback channel, by contrast, emits one map-action
event per valid tool result and overwrites the captured action
(last-wins), as the counterexample shows. -/
theorem sideAction_first_wins_event_channel (evs : List TurnEvent)
    (h : noCbToolEnd evs) :
    mapActionEvents (foldTurn initTurnState evs).2 = (firstToolAction evs).toList ∧
      (foldTurn initTurnState evs).1.mapAction = firstToolAction evs := by
  have hr := foldTurn_mapAction_first evs initTurnState h rfl
  exact ⟨hr.2, hr.1⟩

/-- Witness for the amended C2 on a concrete two-tool event-channel
turn: exactly one map-action event, carrying the first action. -/
theorem sideAction_first_wins_witness :
    noCbToolEnd [TurnEvent.evToolEnd (some (some cexOutA)),
        TurnEvent.evToolEnd (some (some cexOutB))] ∧
      mapActionEvents (foldTurn initTurnState
          [TurnEvent.evToolEnd (some (some cexOutA)),
            TurnEvent.evToolEnd (some (some cexOutB))]).2 =
        (firstToolAction [TurnEvent.evToolEnd (some (some cexOutA)),
          TurnEvent.evToolEnd (some (some cexOutB))]).toList ∧
      (foldTurn initTurnState
          [TurnEvent.evToolEnd (some (some cexOutA)),
            TurnEvent.evToolEnd (some (some cexOutB))]).1.mapAction =
        firstToolAction [TurnEvent.evToolEnd (some (some cexOutA)),
          TurnEvent.evToolEnd (some (some cexOutB))] ∧
      firstToolAction [TurnEvent.evToolEnd (some (some cexOutA)),
        TurnEvent.evToolEnd (some (some cexOutB))] = some cexActA := by
  have hno : noCbToolEnd [TurnEvent.evToolEnd (some (some cexOutA)),
      TurnEvent.evToolEnd (some (some cexOutB))] := by
    intro p hp
    simp at hp
  exact ⟨hno, (sideAction_first_wins_event_channel _ hno).1,
    (sideAction_first_wins_event_channel _ hno).2, rfl⟩

/-- C4: history is append-then-truncate with oldest-first eviction over
a 20-entry retention window (two entries per completed turn): after N
completed turns with N at least 10, the stored history has exactly 20
entries and is exactly the flattening of the 10 most recent turns, in
original order. -/
theorem history_retention (ts : List (String × String))
    (hc : ∀ p ∈ ts, jsTrim p.1 ≠ "" ∧ jsTrim p.2 ≠ "") (hn : 10 ≤ ts.length) :
    (runTurnsHistory [] ts).length = 20 ∧
      runTurnsHistory [] ts = turnsToMsgs (takeRight ts 10) := by
  have h0 : runTurnsHistory [] ts = takeRight (turnsToMsgs ts) 20 := by
    have h := runTurnsHistory_takeRight ts [] hc
    simpa [takeRight] using h
  have hlen10 : (takeRight ts 10).length = 10 := by
    rw [takeRight_length]
    omega
  have hsplit : ts = ts.take (ts.length - 10) ++ takeRight ts 10 :=
    (List.take_append_drop _ ts).symm
  have h2 : takeRight (turnsToMsgs ts) 20 = turnsToMsgs (takeRight ts 10) := by
    conv_lhs => rw [hsplit]
    rw [turnsToMsgs_append]
    apply takeRight_append_exact
    rw [turnsToMsgs_length, hlen10]
  constructor
  · rw [h0, h2, turnsToMsgs_length, hlen10]
  · rw [h0, h2]

/-- Witness for C4 on ten concrete completed turns. -/
theorem history_retention_witness :
    (∀ p ∈ List.replicate 10 (("u", "a") : String × String),
        jsTrim p.1 ≠ "" ∧ jsTrim p.2 ≠ "") ∧
      (runTurnsHistory [] (List.replicate 10 ("u", "a"))).length = 20 ∧
      runTurnsHistory [] (List.replicate 10 ("u", "a")) =
        turnsToMsgs (takeRight (List.replicate 10 ("u", "a")) 10) := by
  have hc : ∀ p ∈ List.replicate 10 (("u", "a") : String × String),
      jsTrim p.1 ≠ "" ∧ jsTrim p.2 ≠ "" := by
    intro p hp
    rw [List.eq_of_mem_replicate hp]
    exact ⟨by decide, by decide⟩
  exact ⟨hc, (history_retention _ hc (by decide)).1, (history_retention _ hc (by decide)).2⟩

/-- Counterexample to C5 as stated: identifiers are the last six decimal
digits of the connection-time timestamp, so two distinct connection
times can yield the same identifier; the second connection then
overwrites the entry of the first in the store (its handle is 2, not 1),
so uniqueness per connection fails. -/
theorem sessionId_collision_cex :
    sessionIdOf 123456 = sessionIdOf 1123456 ∧
      (123456 : Nat) < 1123456 ∧
      acceptConnection (acceptConnection (fun _ => none) 123456 1) 1123456 2
          (sessionIdOf 123456) = some { chatHistory := [], handle := 2 } :=
  ⟨rfl, by decide, rfl⟩

/-- C5 (amended): session identifiers are the last six decimal digits of
the connection timestamp and are therefore not unique per connection in
general; whenever two connections do receive distinct identifiers, each
keeps its own entry in the store and neither overwrites the other.
Connections whose timestamps share their last six digits collide, and
the later one overwrites the earlier entry (see the counterexample). -/
theorem sessionId_distinct_entries (m : SessionStore) (t1 t2 h1 h2 : Nat)
    (hne : sessionIdOf t1 ≠ sessionIdOf t2) :
    (acceptConnection (acceptConnection m t1 h1) t2 h2) (sessionIdOf t1) =
        some { chatHistory := [], handle := h1 } ∧
      (acceptConnection (acceptConnection m t1 h1) t2 h2) (sessionIdOf t2) =
        some { chatHistory := [], handle := h2 } := by
  constructor
  · simp [acceptConnection, storeSet, hne]
  · simp [acceptConnection, storeSet]

/-- Witness for the amended C5 at two concrete connection times with
distinct identifiers. -/
theorem sessionId_distinct_entries_witness :
    sessionIdOf 1 ≠ sessionIdOf 2 ∧
      (acceptConnection (acceptConnection (fun _ => none) 1 1) 2 2) (sessionIdOf 1) =
        some { chatHistory := [], handle := 1 } ∧
      (acceptConnection (acceptConnection (fun _ => none) 1 1) 2 2) (sessionIdOf 2) =
        some { chatHistory := [], handle := 2 } := by
  have hne : sessionIdOf 1 ≠ sessionIdOf 2 := by decide
  exact ⟨hne, (sessionId_distinct_entries _ 1 2 1 2 hne).1,
    (sessionId_distinct_entries _ 1 2 1 2 hne).2⟩

/-- Counterexample to C6 as stated: a tool result whose mapAction carries
the unrecognized tag SPIN_GLOBE is not ignored: extraction returns it
as-is instead of null, contradicting the claim that a document with no
recognized SideAction tag yields null. -/
theorem extractSideAction_unknown_tag_cex :
    extractSideAction (some cexUnknownDoc) = some cexUnknownAct ∧
      sideActionTag cexUnknownAct = some "SPIN_GLOBE" ∧
      specRecognizedTags.contains "SPIN_GLOBE" = false :=
  ⟨rfl, rfl, rfl⟩

/-- C6 (amended): side-action extraction is total and never throws
(parse failures are swallowed by the catch, modelled by the none case);
it returns null when the parse failed or the parsed document carries no
truthy mapAction field, and otherwise returns the mapAction value
exactly as parsed — with no tag validation, so unknown tags are
forwarded rather than ignored (see the counterexample). -/
theorem extractSideAction_total_spec (p : Option JSValue) :
    (p = none → extractSideAction p = none) ∧
      (∀ doc, p = some doc → truthy (objGet doc "mapAction") = false →
        extractSideAction p = none) ∧
      (∀ doc, p = some doc → truthy (objGet doc "mapAction") = true →
        extractSideAction p = some (objGet doc "mapAction")) := by
  refine ⟨?_, ?_, ?_⟩
  · intro h
    rw [h]
    rfl
  · intro doc h hf
    rw [h]
    simp [extractSideAction, hf]
  · intro doc h ht
    rw [h]
    simp [extractSideAction, ht]

/-- Witness for the amended C6 at a concrete parsed document. -/
theorem extractSideAction_total_spec_witness :
    truthy (objGet cexUnknownDoc "mapAction") = true ∧
      extractSideAction (some cexUnknownDoc) = some (objGet cexUnknownDoc "mapAction") :=
  ⟨rfl, (extractSideAction_total_spec (some cexUnknownDoc)).2.2 cexUnknownDoc rfl rfl⟩

/-- C8: writing an outbound event to a closed transport is a silent
no-op (the write helper is a total function that leaves the closed
socket unchanged, so nothing is sent and nothing is thrown), and the
close handler removes the session from the store, so after a mid-stream
disconnect later emissions have no effect and the session is absent. -/
theorem closed_transport_noop (ws : WSConn) (ev : OutEvent) (m : SessionStore)
    (id : String) (hclosed : ws.isOpen = false) :
    wsTrySend ws ev = ws ∧ storeDelete m id id = none := by
  constructor
  · simp [wsTrySend, hclosed]
  · simp [storeDelete]

/-- Witness for C8 on a concrete closed socket and store. -/
theorem closed_transport_noop_witness :
    wsTrySend { isOpen := false, sent := [] } (OutEvent.stream "x") =
        { isOpen := false, sent := [] } ∧
      storeDelete (storeSet (fun _ => none) "123456" { chatHistory := [], handle := 3 })
        "123456" "123456" = none :=
  closed_transport_noop { isOpen := false, sent := [] } (OutEvent.stream "x")
    (storeSet (fun _ => none) "123456" { chatHistory := [], handle := 3 }) "123456" rfl

/-- C10: the schema translation is total over declared parameters: a
parameter whose primitive type is none of string, number, boolean
degrades to the unconstrained any validator instead of failing; a string
parameter with an enumerated value set is constrained to exactly that
literal set; and the translated field is optional exactly when its name
is absent from the required list. -/
theorem schema_translation (props : List (String × SchemaParam)) (required : List String)
    (key : String) (sp : SchemaParam) (hmem : (key, sp) ∈ props) :
    ∃ zf : ZodField, (key, zf) ∈ jsonSchemaToZod props required ∧
      (sp.type ≠ "string" → sp.type ≠ "number" → sp.type ≠ "boolean" →
        zf.base = ZodBase.zany) ∧
      (∀ vs, sp.type = "string" → sp.enum = some vs → zf.base = ZodBase.zenum vs) ∧
      (zf.optionalFlag = true ↔ ¬ key ∈ required) := by
  refine ⟨zodFieldOfParam required key sp, ?_, ?_, ?_, ?_⟩
  · exact List.mem_map.mpr ⟨(key, sp), hmem, rfl⟩
  · intro h1 h2 h3
    simp [zodFieldOfParam, zodBaseOfParam, h1, h2, h3]
  · intro vs h1 h2
    simp [zodFieldOfParam, zodBaseOfParam, h1, h2]
  · simp [zodFieldOfParam, List.elem_iff]

/-- Witness for C10 at the concrete get_directions descriptor, applied
at its enumerated optional mode parameter. -/
theorem schema_translation_witness :
    ∃ zf : ZodField, ("mode", zf) ∈ jsonSchemaToZod gdProps gdRequired ∧
      (gdMode.type ≠ "string" → gdMode.type ≠ "number" → gdMode.type ≠ "boolean" →
        zf.base = ZodBase.zany) ∧
      (∀ vs, gdMode.type = "string" → gdMode.enum = some vs → zf.base = ZodBase.zenum vs) ∧
      (zf.optionalFlag = true ↔ ¬ ("mode" : String) ∈ gdRequired) :=
  schema_translation gdProps gdRequired "mode" gdMode (by simp [gdProps])
